import Mathlib

/-!
Verification development for the printipi 3D-printer firmware core.

The numeric type of the C++ source is `float`; it is embedded here as `ℚ`.
A float that may be NaN is embedded as `Option ℚ`, with `none` playing the
role of NaN.  `sqrt` calls are embedded by passing the square root as an
explicit argument constrained by hypotheses (`r ^ 2 = x`, `0 ≤ r`) at the
points of use.
-/

namespace Printipi

/-- Millimeters per inch, used by `coordToMm` for `UNIT_IN`.
Modelled from the spec: `mathutil::MM_PER_IN` (common/mathutil.h is not in
the sources); one inch is 25.4 millimeters. -/
def MM_PER_IN : ℚ := 254 / 10

/-- One nanosecond expressed in seconds.
Modelled from the spec: `mathutil::NANOSECOND` (common/mathutil.h is not in
the sources); the spec says the duration is "lower-bounded by one
nanosecond". -/
def NANOSECOND : ℚ := 1 / 1000000000

/-- Embedding of `Vector4f` (common/vector4.h, not in the sources but fully
determined by its use in state.h as a componentwise (x, y, z, e) value
type). -/
@[ext] structure Vector4 where
  x : ℚ
  y : ℚ
  z : ℚ
  e : ℚ
  deriving DecidableEq, Repr

instance : Add Vector4 := ⟨fun a b => ⟨a.x + b.x, a.y + b.y, a.z + b.z, a.e + b.e⟩⟩

instance : Sub Vector4 := ⟨fun a b => ⟨a.x - b.x, a.y - b.y, a.z - b.z, a.e - b.e⟩⟩

instance : HSMul ℚ Vector4 Vector4 := ⟨fun c a => ⟨c * a.x, c * a.y, c * a.z, c * a.e⟩⟩

/-- The source's `enum PositionMode` from state.h. -/
inductive PositionMode where
  | POS_ABSOLUTE
  | POS_RELATIVE
  deriving DecidableEq, Repr

/-- The source's `enum LengthUnit` from state.h. -/
inductive LengthUnit where
  | UNIT_MM
  | UNIT_IN
  deriving DecidableEq, Repr

/-- The part of `State<Drv>`'s data that the coordinate pipeline
(state.h lines 178-188) reads and writes: position mode, unit mode, the
absolute destination `_destMm` (millimeters) and the host-zero offset
`_hostZeroOffset` set via G92. -/
structure CoordState where
  positionMode : PositionMode
  unitMode : LengthUnit
  destMm : Vector4
  hostZeroOffset : Vector4
  deriving DecidableEq, Repr

/-- Embedding of `State::coordToAbsolute` (state.h lines 320-328): in relative mode add
the current destination, in absolute mode return the coordinate
unchanged. -/
def coordToAbsolute (st : CoordState) (posUnit : Vector4) : Vector4 :=
  match st.positionMode with
  | .POS_RELATIVE => posUnit + st.destMm
  | .POS_ABSOLUTE => posUnit

/-- Embedding of `State::coordToMm` (state.h lines 330-339): multiply by `MM_PER_IN`
when the unit mode is inches. -/
def coordToMm (st : CoordState) (coord : Vector4) : Vector4 :=
  match st.unitMode with
  | .UNIT_IN => MM_PER_IN • coord
  | .UNIT_MM => coord

/-- Embedding of `State::coordToPrimitive` (state.h lines 341-343):
`coordToMm(coordToAbsolute(coord)) + _hostZeroOffset`. -/
def coordToPrimitive (st : CoordState) (coord : Vector4) : Vector4 :=
  coordToMm st (coordToAbsolute st coord) + st.hostZeroOffset

/-- The composition stated by the spec (spec.md section 6, "Coordinate
semantics"), in the spec's own order: (a) interpret the parameter in the
current unit mode, (b) offset it by the host-zero origin, (c) if in
relative mode make it absolute by adding the current destination.  This
definition follows the spec's words; it is compared against
`coordToPrimitive`, which is translated from the source. -/
def specCoordToPrimitive (st : CoordState) (coord : Vector4) : Vector4 :=
  let inMm := coordToMm st coord
  let offset := inMm + st.hostZeroOffset
  match st.positionMode with
  | .POS_RELATIVE => offset + st.destMm
  | .POS_ABSOLUTE => offset

/-- Embedding of `State::setHostZeroPos` (state.h lines 359-368):
`_hostZeroOffset = _destMm - Vector4f(x, y, z, e)`. -/
def setHostZeroPos (st : CoordState) (x y z e : ℚ) : CoordState :=
  { st with hostZeroOffset := st.destMm - ⟨x, y, z, e⟩ }

/-- The X/Y/Z/E arguments of a G92 command; `none` means the parameter is
absent (`cmd.hasX()` is false).  The numeric value carried by a present
parameter is the raw value from the host (`cmd.getX()`). -/
structure G92Args where
  x : Option ℚ
  y : Option ℚ
  z : Option ℚ
  e : Option ℚ
  deriving DecidableEq, Repr

/-- The test `cmd.hasAnyXYZEParam()` for the modelled G92 arguments. -/
def G92Args.hasAnyXYZEParam (a : G92Args) : Bool :=
  a.x.isSome || a.y.isSome || a.z.isSome || a.e.isSome

/-- The `isG92` branch of `State::execute` (state.h lines 558-572): with no
arguments, set the host zero to the current position; otherwise convert the
present parameters to millimeters and keep the current zero for the absent
ones, then call `setHostZeroPos`. -/
def execG92 (st : CoordState) (a : G92Args) : CoordState :=
  if ¬a.hasAnyXYZEParam then
    setHostZeroPos st 0 0 0 0
  else
    let cmdPosMm := coordToMm st ⟨a.x.getD 0, a.y.getD 0, a.z.getD 0, a.e.getD 0⟩
    let curZeroPos := st.destMm - st.hostZeroOffset
    let actualX := if a.x.isSome then cmdPosMm.x else curZeroPos.x
    let actualY := if a.y.isSome then cmdPosMm.y else curZeroPos.y
    let actualZ := if a.z.isSome then cmdPosMm.z else curZeroPos.z
    let actualE := if a.e.isSome then cmdPosMm.e else curZeroPos.e
    setHostZeroPos st actualX actualY actualZ actualE

/-! ### MotionPlanner::moveTo numeric computation (motionplanner.h lines 121-139)

`applyLeveling` and `bound` (coordmap, not needed by the claims) are taken as
already applied to the destination; `dist`, the value of `sqrt(distSq)`, is
passed as an argument and constrained by hypotheses where the claims need it.
-/

/-- The line `float distSq = (x-curX)*(x-curX) + (y-curY)*(y-curY) + (z-curZ)*(z-curZ);`
(motionplanner.h line 126). -/
def moveToDistSq (curX curY curZ x y z : ℚ) : ℚ :=
  (x - curX) * (x - curX) + (y - curY) * (y - curY) + (z - curZ) * (z - curZ)

/-- The line `float minDuration = dist/maxVelXyz;` (motionplanner.h line 128).  Note:
no lower bound is applied. -/
def moveToMinDuration (dist maxVelXyz : ℚ) : ℚ := dist / maxVelXyz

/-- The legacy duration computation from `State::queueMovement`
(code/firmware/src/state.h line 444):
`float duration = std::max(mathutil::NANOSECOND, dist/velXYZ);`. -/
def legacyQueueMovementDuration (dist velXYZ : ℚ) : ℚ :=
  max NANOSECOND (dist / velXYZ)

/-- The velocities and duration produced by `MotionPlanner::moveTo`. -/
structure MoveToResult where
  duration : ℚ
  maxVelXyz : ℚ
  velE : ℚ
  vx : ℚ
  vy : ℚ
  vz : ℚ
  deriving DecidableEq, Repr

/-- The numeric core of `MotionPlanner::moveTo` (motionplanner.h lines
126-139): extruder velocity, clamp, conditional recomputation of the
duration and of `maxVelXyz`, and per-axis velocities. -/
def moveToCompute (curX curY curZ curE x y z e maxVelXyz minVelE maxVelE dist : ℚ) :
    MoveToResult :=
  let minDuration := moveToMinDuration dist maxVelXyz
  let velE := (e - curE) / minDuration
  let newVelE := max minVelE (min maxVelE velE)
  if velE ≠ newVelE then
    let minDuration2 := (e - curE) / newVelE
    let maxVelXyz2 := dist / minDuration2
    { duration := minDuration2, maxVelXyz := maxVelXyz2, velE := newVelE,
      vx := (x - curX) / minDuration2, vy := (y - curY) / minDuration2,
      vz := (z - curZ) / minDuration2 }
  else
    { duration := minDuration, maxVelXyz := maxVelXyz, velE := velE,
      vx := (x - curX) / minDuration, vy := (y - curY) / minDuration,
      vz := (z - curZ) / minDuration }

/-! ### LinearDeltaStepper (drivers/lineardeltastepper.h lines 396-524)

The stepper state is the triple (`time`, `direction`, `sTotal`); the
per-segment constants computed by the constructor (`_MM_STEPS`, `inv_v2`,
`vz_over_v2`, `_almostTerm1`, `_almostRootParam`, `_almostRootParamV2S`)
are carried in a parameter record.  `std::sqrt` is embedded as an explicit
function argument `sqrtFn`, constrained by hypotheses at the points where a
theorem needs its meaning. -/

/-- The source's `enum StepDirection` (drivers/axisstepper.h is not in the sources; the
spec's `StepDirection` is {Forward, Backward}). -/
inductive StepDirection where
  | StepBackward
  | StepForward
  deriving DecidableEq, Repr

/-- The conversion `stepDirToSigned<int>`: Forward steps add +1 to the mechanical
coordinate, Backward steps add −1 (modelled from the spec: the mechanical
coordinate changes by ±1 per step as determined by the direction). -/
def stepDirToSigned : StepDirection → ℤ
  | .StepForward => 1
  | .StepBackward => -1

/-- The per-segment constants of `LinearDeltaStepper` computed by its
constructor (lineardeltastepper.h lines 398-405, 413-448). -/
structure LinearDeltaParams where
  MM_STEPS : ℚ
  inv_v2 : ℚ
  vz_over_v2 : ℚ
  almostTerm1 : ℚ
  almostRootParam : ℚ
  almostRootParamV2S : ℚ
  deriving DecidableEq, Repr

/-- The `term1` output of `getTerm1AndRootParam` (lineardeltastepper.h line 451):
`_almostTerm1 + vz_over_v2*s`. -/
def getTerm1 (prm : LinearDeltaParams) (s : ℚ) : ℚ :=
  prm.almostTerm1 + prm.vz_over_v2 * s

/-- The `rootParam` output of `getTerm1AndRootParam` (lineardeltastepper.h line 452):
`term1*term1 + _almostRootParam - inv_v2*s*(_almostRootParamV2S + s)`. -/
def getRootParam (prm : LinearDeltaParams) (s : ℚ) : ℚ :=
  getTerm1 prm s * getTerm1 prm s + prm.almostRootParam -
    prm.inv_v2 * s * (prm.almostRootParamV2S + s)

/-- Embedding of `LinearDeltaStepper::testDir` (lineardeltastepper.h lines 467-482).
`time` is the value of `this->time` (the last emitted step time); the
result `none` models the returned NaN. -/
def testDir (sqrtFn : ℚ → ℚ) (prm : LinearDeltaParams) (time : ℚ) (s : ℚ) : Option ℚ :=
  if getRootParam prm s < 0 then none
  else if sqrtFn (getRootParam prm s) > getTerm1 prm s then
    -- `root > term1`: `t1` must be negative, so return `t2` if valid
    if getTerm1 prm s + sqrtFn (getRootParam prm s) > time then
      some (getTerm1 prm s + sqrtFn (getRootParam prm s))
    else none
  else
    if getTerm1 prm s - sqrtFn (getRootParam prm s) > time then
      some (getTerm1 prm s - sqrtFn (getRootParam prm s))
    else if getTerm1 prm s + sqrtFn (getRootParam prm s) > time then
      some (getTerm1 prm s + sqrtFn (getRootParam prm s))
    else none

/-- The base-class state of an axis stepper that `LinearDeltaStepper`
mutates: `time` (`none` models NaN), `direction`, and the step offset
`sTotal`. -/
structure LinearDeltaStepper where
  time : Option ℚ
  direction : StepDirection
  sTotal : ℤ
  deriving DecidableEq, Repr

/-- The float comparison `a < b || std::isnan(a)` of `_nextStep` (NaN on
the left makes the disjunction true through `isnan`). -/
def floatLTOrNaN (a : Option ℚ) (b : ℚ) : Bool :=
  match a with
  | none => true
  | some v => decide (v < b)

/-- The float comparison `a > b` where `a` may be NaN (false on NaN). -/
def floatGTval (a : Option ℚ) (b : ℚ) : Bool :=
  match a with
  | none => false
  | some v => decide (b < v)

/-- The float comparison `a < b` where either side may be NaN (false if
either is NaN). -/
def floatLT : Option ℚ → Option ℚ → Bool
  | some a, some b => decide (a < b)
  | _, _ => false

/-- Embedding of `LinearDeltaStepper::_nextStep` (lineardeltastepper.h lines 483-523):
test a backward step (`sTotal - 1`) and a forward step (`sTotal + 1`) via
`testDir`; an invalid candidate is one `< this->time` or NaN; the smaller
valid candidate becomes the new time and sets the direction and the step
counter, and if both are invalid the time becomes NaN. -/
def LinearDeltaStepper.nextStep (sqrtFn : ℚ → ℚ) (prm : LinearDeltaParams)
    (st : LinearDeltaStepper) : LinearDeltaStepper :=
  match st.time with
  | none => { st with time := none }
  | some t =>
    let negTime := testDir sqrtFn prm t ((st.sTotal - 1) * prm.MM_STEPS)
    let posTime := testDir sqrtFn prm t ((st.sTotal + 1) * prm.MM_STEPS)
    if floatLTOrNaN negTime t then
      if floatGTval posTime t then
        { time := posTime, direction := .StepForward, sTotal := st.sTotal + 1 }
      else
        { st with time := none }
    else if floatLTOrNaN posTime t then
      if floatGTval negTime t then
        { time := negTime, direction := .StepBackward, sTotal := st.sTotal - 1 }
      else
        { st with time := none }
    else
      if floatLT negTime posTime then
        { time := negTime, direction := .StepBackward, sTotal := st.sTotal - 1 }
      else
        { time := posTime, direction := .StepForward, sTotal := st.sTotal + 1 }

/-! ### State::execute command dispatch (state.h lines 465-687)

The g-code `Command` accessors (`isG0()`, `isM104()`, ... from
gparse/command.h, which is not in the sources) are modelled from the spec's
opcode table: `isG0 cmd` holds iff the opcode string is "G0", and `isTxxx`
holds iff the opcode starts with "T".  Replies are modelled as the response
kind together with its key/value pairs; the C++ `throw std::runtime_error`
in the final `else` is modelled as `Except.error` with the exception
message. -/

/-- A parsed g-code command, reduced to the data the dispatch logic of
`State::execute` branches on. -/
structure GCommand where
  opcode : String
  deriving DecidableEq, Repr

/-- A reply sent to the host (gparse/response.h, modelled from the spec:
`ok` or `ok <key>:<value> ...`). -/
inductive ResponseM where
  | ok
  | okPairs (kvs : List (String × String))
  deriving DecidableEq, Repr

/-- The parts of `State`'s condition context that the guards of the
movement branches of `execute` read. -/
structure ExecCtx where
  readyForNextMove : Bool
  hotendReady : Bool
  isHoming : Bool
  gcodeFileStackEmpty : Bool
  hotendTemp : String
  bedTemp : String
  deriving DecidableEq, Repr

/-- The reply behaviour of `State::execute` (state.h lines 465-687):
`.ok (some r)` models a call of the reply functor with response `r`;
`.ok none` models the early `return`s that defer the command (no reply);
`.error msg` models `throw std::runtime_error(msg)`. -/
def executeReply (ctx : ExecCtx) (cmd : GCommand) : Except String (Option ResponseM) :=
  if cmd.opcode = "G0" ∨ cmd.opcode = "G1" then
    if ¬ctx.readyForNextMove then .ok none
    else if ¬ctx.hotendReady then .ok none
    else if ctx.isHoming then .ok none
    else .ok (some .ok)
  else if cmd.opcode = "G2" ∨ cmd.opcode = "G3" then
    if ¬ctx.readyForNextMove then .ok none
    else if ¬ctx.hotendReady then .ok none
    else if ctx.isHoming then .ok none
    else .ok (some .ok)
  else if cmd.opcode = "G20" then .ok (some .ok)
  else if cmd.opcode = "G21" then .ok (some .ok)
  else if cmd.opcode = "G28" then
    if ¬ctx.readyForNextMove then .ok none
    else if ¬ctx.hotendReady then .ok none
    else if ctx.isHoming then .ok none
    else .ok (some .ok)
  else if cmd.opcode = "G90" then .ok (some .ok)
  else if cmd.opcode = "G91" then .ok (some .ok)
  else if cmd.opcode = "G92" then .ok (some .ok)
  else if cmd.opcode = "M0" then .ok (some .ok)
  else if cmd.opcode = "M17" then .ok (some .ok)
  else if cmd.opcode = "M18" then .ok (some .ok)
  else if cmd.opcode = "M21" then .ok (some .ok)
  else if cmd.opcode = "M22" then .ok (some .ok)
  else if cmd.opcode = "M32" then .ok (some .ok)
  else if cmd.opcode = "M82" then .ok (some .ok)
  else if cmd.opcode = "M83" then .ok (some .ok)
  else if cmd.opcode = "M84" then .ok (some .ok)
  else if cmd.opcode = "M99" then .ok (some .ok)
  else if cmd.opcode = "M104" then .ok (some .ok)
  else if cmd.opcode = "M105" then
    .ok (some (.okPairs [("T", ctx.hotendTemp), ("B", ctx.bedTemp)]))
  else if cmd.opcode = "M106" then .ok (some .ok)
  else if cmd.opcode = "M107" then .ok (some .ok)
  else if cmd.opcode = "M109" then .ok (some .ok)
  else if cmd.opcode = "M110" then .ok (some .ok)
  else if cmd.opcode = "M111" then .ok (some .ok)
  else if cmd.opcode = "M112" then .ok (some .ok)
  else if cmd.opcode = "M115" then
    .ok (some (.okPairs [("FIRMWARE_NAME", "printipi"),
      ("FIRMWARE_URL", "githum.com/Wallacoloo/printipi")]))
  else if cmd.opcode = "M116" then .ok (some .ok)
  else if cmd.opcode = "M117" then .ok (some .ok)
  else if cmd.opcode = "M140" then .ok (some .ok)
  else if cmd.opcode.take 1 = "T" then .ok (some .ok)
  else .error ("unrecognized gcode opcode: " ++ cmd.opcode)

/-- The opcodes for which `State::execute` has a branch (the verbs of the
spec's table, section 6). -/
def recognizedOpcode (cmd : GCommand) : Prop :=
  cmd.opcode ∈ ["G0", "G1", "G2", "G3", "G20", "G21", "G28", "G90", "G91", "G92",
    "M0", "M17", "M18", "M21", "M22", "M32", "M82", "M83", "M84", "M99",
    "M104", "M105", "M106", "M107", "M109", "M110", "M111", "M112", "M115",
    "M116", "M117", "M140"] ∨ cmd.opcode.take 1 = "T"

instance (cmd : GCommand) : Decidable (recognizedOpcode cmd) := by
  unfold recognizedOpcode
  infer_instance

/-! ### MotionPlanner (motion/motionplanner.h)

The planner is generic over the machine's axis steppers
(`AxisStepperTypes`); the stepper interface (`time`, `direction`,
`nextStep`) is a record of functions over an abstract stepper state type
`σ`, with the contract properties (for instance that an advanced stepper
proposes a strictly later time, which `LinearDeltaStepper::testDir`
guarantees) taken as hypotheses of the theorems. -/

/-- The source's `enum MotionType` (motionplanner.h lines 17-21). -/
inductive MotionType where
  | MotionNone
  | MotionMove
  | MotionHome
  deriving DecidableEq, Repr

/-- An output event (`Event` from drivers/axisstepper.h, which is not in
the sources).  Modelled from the spec: an event carries a deadline, an
axis id and a direction, and there is a null event.  The extra field
`idealTime` records the untransformed stepper time `s.time` from which the
deadline `baseTime + transform(s.time)` was produced, so that the claims
about per-axis step times can be stated. -/
inductive Event (n : ℕ) where
  | null
  | step (axis : Fin n) (direction : StepDirection) (idealTime : ℚ) (deadline : ℚ)
  deriving DecidableEq, Repr

/-- The interface of an axis stepper as used by `MotionPlanner`: the
public fields `time` (`none` models NaN) and `direction`, and the
`nextStep` advance operation. -/
structure AxisStepperOps (σ : Type) where
  time : σ → Option ℚ
  direction : σ → StepDirection
  advance : σ → σ

/-- Embedding of `MotionPlanner`'s data members (motionplanner.h lines 28-37):
mechanical position, move steppers `_iters`, home steppers `_homeIters`,
`_baseTime`, `_duration` (`none` models the NaN set by `homeEndstops`),
and the motion type. -/
structure MotionPlanner (σ : Type) (n : ℕ) where
  destMechanicalPos : Fin n → ℤ
  iters : Fin n → σ
  homeIters : Fin n → σ
  baseTime : ℚ
  duration : Option ℚ
  motionType : MotionType

/-- Embedding of `MotionPlanner::readyForNextMove` (motionplanner.h lines 48-51). -/
def MotionPlanner.readyForNextMove (p : MotionPlanner σ n) : Bool :=
  p.motionType = .MotionNone

/-- The stepper set the current motion works on: `_homeIters` when homing,
`_iters` otherwise (the `_nextStepHoming`/`_nextStepMoving` split of
motionplanner.h lines 85-96). -/
def MotionPlanner.curIters (p : MotionPlanner σ n) : Fin n → σ :=
  if p.motionType = .MotionHome then p.homeIters else p.iters

/-- The float comparison `a <= b` where `a` may be NaN (false on NaN). -/
def floatLEval (a : Option ℚ) (b : ℚ) : Bool :=
  match a with
  | none => false
  | some v => decide (v ≤ b)

/-- The move-ending test of `_nextStep` (motionplanner.h line 56):
`s.time > _duration || s.time <= 0 || std::isnan(s.time)`, with both the
stepper time and `_duration` possibly NaN (every float comparison against
NaN is false). -/
def stepEndsMove (dur : Option ℚ) (time : Option ℚ) : Bool :=
  floatLT dur time || floatLEval time 0 || time.isNone

/-- The NaN-as-never comparison used to pick the next stepper.  Modelled
from the spec: the planner services "the axis with smallest `peek_time()`
(ties broken by axis index)", where a NaN `peek_time` means the axis never
steps again in this segment (larger than every number). -/
def timeLT : Option ℚ → Option ℚ → Bool
  | some a, some b => decide (a < b)
  | some _, none => true
  | none, _ => false

/-- Embedding of `drv::AxisStepper::getNextTime` (drivers/axisstepper.h, which is not in
the sources).  Modelled from the spec: return the index of the axis with
the smallest `peek_time()`, ties broken by the smaller axis index; `none`
for a machine with zero axes (the sanity check of motionplanner.h lines
106-108). -/
def pickBest (ops : AxisStepperOps σ) (st : Fin n → σ) :
    Option (Fin n) → List (Fin n) → Option (Fin n)
  | best, [] => best
  | none, i :: rest => pickBest ops st (some i) rest
  | some b, i :: rest =>
    pickBest ops st
      (if timeLT (ops.time (st i)) (ops.time (st b)) then some i else some b) rest

/-- See `pickBest`: scan all axes for the smallest time. -/
def getNextTimeIndex (ops : AxisStepperOps σ) (st : Fin n → σ) : Option (Fin n) :=
  pickBest ops st none (List.finRange n)

/-- Embedding of `MotionPlanner::nextStep` together with `_nextStep` (motionplanner.h
lines 53-114): a null event while idle; otherwise pick the stepper with
the smallest time; if its time ends the move (`> duration`, `<= 0` or
NaN), reset the mechanical position to `CoordMapT::getHomePosition`
(passed as `getHomePosition`) when homing and go idle with a null event;
otherwise emit the event at `baseTime + transform(s.time)`, add the signed
direction to the axis's mechanical position and advance that stepper. -/
def MotionPlanner.nextStep (ops : AxisStepperOps σ) (transform : ℚ → ℚ)
    (getHomePosition : (Fin n → ℤ) → Fin n → ℤ) (p : MotionPlanner σ n) :
    Event n × MotionPlanner σ n :=
  if p.motionType = .MotionNone then (.null, p)
  else
    match getNextTimeIndex ops p.curIters with
    | none => (.null, p)
    | some i =>
      if stepEndsMove p.duration (ops.time (p.curIters i)) then
        (.null,
          { p with
            destMechanicalPos :=
              if p.motionType = .MotionHome then getHomePosition p.destMechanicalPos
              else p.destMechanicalPos,
            motionType := .MotionNone })
      else
        (Event.step i (ops.direction (p.curIters i)) ((ops.time (p.curIters i)).getD 0)
            (p.baseTime + transform ((ops.time (p.curIters i)).getD 0)),
          if p.motionType = .MotionHome then
            { p with
              destMechanicalPos := Function.update p.destMechanicalPos i
                (p.destMechanicalPos i + stepDirToSigned (ops.direction (p.curIters i))),
              homeIters := Function.update p.curIters i (ops.advance (p.curIters i)) }
          else
            { p with
              destMechanicalPos := Function.update p.destMechanicalPos i
                (p.destMechanicalPos i + stepDirToSigned (ops.direction (p.curIters i))),
              iters := Function.update p.curIters i (ops.advance (p.curIters i)) })

/-- Repeatedly pull events from the planner (the `State::onIdleCpu` /
scheduler loop pulling `nextStep`), collecting the yielded events. -/
def MotionPlanner.run (ops : AxisStepperOps σ) (transform : ℚ → ℚ)
    (getHomePosition : (Fin n → ℤ) → Fin n → ℤ) (p : MotionPlanner σ n) :
    ℕ → List (Event n) × MotionPlanner σ n
  | 0 => ([], p)
  | Nat.succ k =>
    ((p.nextStep ops transform getHomePosition).1 ::
        (MotionPlanner.run ops transform getHomePosition
          (p.nextStep ops transform getHomePosition).2 k).1,
      (MotionPlanner.run ops transform getHomePosition
        (p.nextStep ops transform getHomePosition).2 k).2)

/-- The deadlines of the non-null events of a yielded event list, in
order. -/
def stepDeadlines : List (Event n) → List ℚ
  | [] => []
  | .null :: es => stepDeadlines es
  | .step _ _ _ dl :: es => dl :: stepDeadlines es

/-- The ideal (untransformed) step times of the non-null events, in
order. -/
def idealTimes : List (Event n) → List ℚ
  | [] => []
  | .null :: es => idealTimes es
  | .step _ _ m _ :: es => m :: idealTimes es

/-- The ideal step times proposed for one axis, in order. -/
def axisIdealTimes (a : Fin n) : List (Event n) → List ℚ
  | [] => []
  | .null :: es => axisIdealTimes a es
  | .step b _ m _ :: es =>
    if b = a then m :: axisIdealTimes a es else axisIdealTimes a es

/-- The planner-state effect of `MotionPlanner::moveTo` (motionplanner.h
lines 115-152): nothing for a zero-axis machine (line 117); otherwise
record the base time, install the initialized steppers (the result of
`initAxisSteppers`, drivers/axisstepper.h, passed as `newIters`), set the
duration and enter `MotionMove`. -/
def MotionPlanner.moveToState (p : MotionPlanner σ n) (baseTime : ℚ)
    (newIters : Fin n → σ) (minDuration : ℚ) : MotionPlanner σ n :=
  if n = 0 then p
  else
    { p with
      baseTime := baseTime
      iters := newIters
      duration := some minDuration
      motionType := .MotionMove }

/-- The planner-state effect of `arcTo`.  Modelled from the spec (section
4.4): `arc_to(start_time, dest, center, ...)` enters Moving with
`base_time = start_time` (the `arcTo` member called by state.h line 698 is
not part of the sources' motionplanner.h). -/
def MotionPlanner.arcToState (p : MotionPlanner σ n) (baseTime : ℚ)
    (newIters : Fin n → σ) (minDuration : ℚ) : MotionPlanner σ n :=
  if n = 0 then p
  else
    { p with
      baseTime := baseTime
      iters := newIters
      duration := some minDuration
      motionType := .MotionMove }

/-- The `State` data involved in queueing a segment (state.h line 194 and
lines 689-710). -/
structure StateMotion (σ : Type) (n : ℕ) where
  lastMotionPlannedTime : ℚ
  motionPlanner : MotionPlanner σ n

/-- Embedding of `State::queueMovement` (state.h lines 701-710): start the next segment
at `std::max(_lastMotionPlannedTime, EventClockT::now())` and hand that
start time to `MotionPlanner::moveTo`. -/
def State.queueMovement (st : StateMotion σ n) (now : ℚ) (newIters : Fin n → σ)
    (minDuration : ℚ) : StateMotion σ n :=
  { st with motionPlanner :=
      st.motionPlanner.moveToState (max st.lastMotionPlannedTime now) newIters minDuration }

/-- Embedding of `State::queueArc` (state.h lines 689-699): the same start-time rule,
handed to `arcTo`. -/
def State.queueArc (st : StateMotion σ n) (now : ℚ) (newIters : Fin n → σ)
    (minDuration : ℚ) : StateMotion σ n :=
  { st with motionPlanner :=
      st.motionPlanner.arcToState (max st.lastMotionPlannedTime now) newIters minDuration }

/-! ### Concrete instances used by the closed witness theorems -/

/-- C6 counterexample state: inches mode, relative mode, current destination
(1, 0, 0, 0) mm, zero host offset. -/
def c6State : CoordState :=
  { positionMode := .POS_RELATIVE
    unitMode := .UNIT_IN
    destMm := ⟨1, 0, 0, 0⟩
    hostZeroOffset := ⟨0, 0, 0, 0⟩ }

/-- A concrete execution context for the `State::execute` theorems. -/
def c9Ctx : ExecCtx :=
  { readyForNextMove := true, hotendReady := true, isHoming := false,
    gcodeFileStackEmpty := false, hotendTemp := "25", bedTemp := "25" }

/-- A trivial stepper interface over `Unit` whose time is always NaN. -/
def opsUnit : AxisStepperOps Unit :=
  { time := fun _ => none, direction := fun _ => .StepForward, advance := fun u => u }

/-- A stepper interface over `ℚ` that proposes its state as the next time
and adds one on each advance. -/
def opsCount : AxisStepperOps ℚ :=
  { time := fun s => some s, direction := fun _ => .StepForward, advance := fun s => s + 1 }

/-- A one-axis idle planner. -/
def pIdle : MotionPlanner Unit 1 :=
  { destMechanicalPos := fun _ => 0, iters := fun _ => (), homeIters := fun _ => ()
    baseTime := 0, duration := none, motionType := .MotionNone }

/-- A one-axis moving planner over `opsCount` with duration 2 and first
step time 1/2. -/
def pMove : MotionPlanner ℚ 1 :=
  { destMechanicalPos := fun _ => 0, iters := fun _ => (1 / 2 : ℚ), homeIters := fun _ => 0
    baseTime := 0, duration := some 2, motionType := .MotionMove }

/-- A one-axis moving planner over `opsUnit` whose (NaN) stepper time ends
the move at once. -/
def pEnd : MotionPlanner Unit 1 :=
  { destMechanicalPos := fun _ => 7, iters := fun _ => (), homeIters := fun _ => ()
    baseTime := 3, duration := some 1, motionType := .MotionMove }

end Printipi

namespace Printipi

theorem Vector4.add_def (a b : Vector4) :
    a + b = ⟨a.x + b.x, a.y + b.y, a.z + b.z, a.e + b.e⟩ := rfl

theorem Vector4.sub_def (a b : Vector4) :
    a - b = ⟨a.x - b.x, a.y - b.y, a.z - b.z, a.e - b.e⟩ := rfl

theorem Vector4.smul_def (c : ℚ) (a : Vector4) :
    c • a = ⟨c * a.x, c * a.y, c * a.z, c * a.e⟩ := rfl

/-- C6 counterexample: in inches + relative mode with current destination
(1, 0, 0, 0) mm, the source's `coordToPrimitive` applied to the zero
coordinate yields (25.4, 0, 0, 0) — the millimeter-valued destination is
scaled by 25.4 as well — whereas the spec's composition (unit conversion,
then host-zero offset, then relative addition) yields (1, 0, 0, 0). -/
theorem coordToPrimitive_ne_spec_at_inch_relative :
    coordToPrimitive c6State ⟨0, 0, 0, 0⟩ ≠ specCoordToPrimitive c6State ⟨0, 0, 0, 0⟩ := by
  intro h
  have hx := congrArg Vector4.x h
  norm_num [coordToPrimitive, specCoordToPrimitive, c6State, coordToAbsolute, coordToMm,
    MM_PER_IN, Vector4.add_def, Vector4.smul_def] at hx

/-- C6 (amended): `coordToPrimitive` performs the relative-mode addition of
the current destination BEFORE the unit conversion — it computes
`coordToMm (coordToAbsolute coord) + hostZeroOffset` — so it realizes the
spec's composition whenever the unit mode is millimeters or the position
mode is absolute, but in inches + relative mode the current millimeter
destination is scaled by 25.4 as well. -/
theorem coordToPrimitive_spec_agreement (st : CoordState) (coord : Vector4)
    (h : st.unitMode = .UNIT_MM ∨ st.positionMode = .POS_ABSOLUTE) :
    coordToPrimitive st coord = specCoordToPrimitive st coord := by
  rcases h with h | h
  · cases hp : st.positionMode
    · simp [coordToPrimitive, specCoordToPrimitive, coordToAbsolute, coordToMm, h, hp]
    · simp only [coordToPrimitive, specCoordToPrimitive, coordToAbsolute, coordToMm, h, hp,
        Vector4.add_def, Vector4.mk.injEq]
      refine ⟨by ring, by ring, by ring, by ring⟩
  · cases hu : st.unitMode <;>
      simp [coordToPrimitive, specCoordToPrimitive, coordToAbsolute, coordToMm, h, hu]

/-- Witness for `coordToPrimitive_spec_agreement` at a concrete state in
millimeter mode. -/
theorem coordToPrimitive_spec_agreement_witness :
    coordToPrimitive
        { positionMode := .POS_RELATIVE, unitMode := .UNIT_MM,
          destMm := ⟨3, 4, 5, 6⟩, hostZeroOffset := ⟨1, 1, 1, 1⟩ } ⟨2, 0, 0, 0⟩ =
      specCoordToPrimitive
        { positionMode := .POS_RELATIVE, unitMode := .UNIT_MM,
          destMm := ⟨3, 4, 5, 6⟩, hostZeroOffset := ⟨1, 1, 1, 1⟩ } ⟨2, 0, 0, 0⟩ :=
  coordToPrimitive_spec_agreement _ _ (Or.inl rfl)

/-- C8: executing the G92 branch twice with the same arguments (including
the no-argument form and forms with only a subset of X/Y/Z/E present)
yields the same state — in particular the same host-zero offset — as
executing it once, for every prior destination and offset. -/
theorem execG92_idempotent (st : CoordState) (a : G92Args) :
    execG92 (execG92 st a) a = execG92 st a := by
  cases st with
  | mk pm um dest off =>
    by_cases h : a.hasAnyXYZEParam
    · rcases a with ⟨x, y, z, e⟩
      cases x <;> cases y <;> cases z <;> cases e <;>
        simp_all [execG92, setHostZeroPos, coordToMm, Vector4.sub_def,
          G92Args.hasAnyXYZEParam]
    · simp [execG92, h, setHostZeroPos, Vector4.sub_def]

/-- C4: in `MotionPlanner::moveTo` the extruder velocity is
`(e - curE) / minDuration`, clamped to `[minVelE, maxVelE]`; when the clamp
changes it (and the recomputation is well-defined: `e ≠ curE` and the
clamped velocity is nonzero), the duration is recomputed as
`(e - curE) / newVelE`, `maxVelXyz` is rescaled to `dist / duration`, and
the per-axis velocities derived from the recomputed duration satisfy
`vx² + vy² + vz² = maxVelXyz²` and `v· * duration = dest − cur`, i.e. they
remain consistent with the Cartesian distance. -/
theorem moveTo_extruder_clamp_consistent
    (curX curY curZ curE x y z e maxVelXyz minVelE maxVelE dist newVelE D : ℚ)
    (hdist : dist * dist = moveToDistSq curX curY curZ x y z)
    (hNew : newVelE = max minVelE (min maxVelE ((e - curE) / moveToMinDuration dist maxVelXyz)))
    (hD : D = (e - curE) / newVelE)
    (hclamp : (e - curE) / moveToMinDuration dist maxVelXyz ≠ newVelE)
    (hee : e ≠ curE)
    (hnz : newVelE ≠ 0) :
    (moveToCompute curX curY curZ curE x y z e maxVelXyz minVelE maxVelE dist).velE = newVelE ∧
    (moveToCompute curX curY curZ curE x y z e maxVelXyz minVelE maxVelE dist).duration = D ∧
    (moveToCompute curX curY curZ curE x y z e maxVelXyz minVelE maxVelE dist).maxVelXyz =
      dist / D ∧
    (x - curX) / D * ((x - curX) / D) + (y - curY) / D * ((y - curY) / D) +
      (z - curZ) / D * ((z - curZ) / D) = dist / D * (dist / D) ∧
    (moveToCompute curX curY curZ curE x y z e maxVelXyz minVelE maxVelE dist).vx * D =
      x - curX ∧
    (moveToCompute curX curY curZ curE x y z e maxVelXyz minVelE maxVelE dist).vy * D =
      y - curY ∧
    (moveToCompute curX curY curZ curE x y z e maxVelXyz minVelE maxVelE dist).vz * D =
      z - curZ := by
  have hdur : D ≠ 0 := by
    rw [hD]
    exact div_ne_zero (sub_ne_zero.2 hee) hnz
  have hmc : moveToCompute curX curY curZ curE x y z e maxVelXyz minVelE maxVelE dist =
      { duration := D, maxVelXyz := dist / D, velE := newVelE,
        vx := (x - curX) / D, vy := (y - curY) / D, vz := (z - curZ) / D } := by
    rw [moveToCompute]
    rw [← hNew, if_pos hclamp, ← hD]
  rw [hmc]
  refine ⟨rfl, rfl, rfl, ?_, ?_, ?_, ?_⟩
  · rw [moveToDistSq] at hdist
    field_simp
    nlinarith [hdist]
  · exact div_mul_cancel₀ _ hdur
  · exact div_mul_cancel₀ _ hdur
  · exact div_mul_cancel₀ _ hdur

/-- Witness for `moveTo_extruder_clamp_consistent`: current position the
origin, destination (3, 4, 0) with extrusion 10 mm at `maxVelXyz = 5` and
extrusion clamp `[-2, 2]`; the clamp engages (ideal `velE = 10`) and the
recomputed duration is 5 s. -/
theorem moveTo_extruder_clamp_consistent_witness :
    (moveToCompute 0 0 0 0 3 4 0 10 5 (-2) 2 5).velE = 2 ∧
    (moveToCompute 0 0 0 0 3 4 0 10 5 (-2) 2 5).duration = 5 ∧
    (moveToCompute 0 0 0 0 3 4 0 10 5 (-2) 2 5).maxVelXyz = 5 / 5 ∧
    (3 - 0) / 5 * ((3 - 0) / 5) + (4 - 0) / 5 * ((4 - 0) / 5) +
      (0 - 0) / 5 * ((0 - 0) / 5) = 5 / 5 * (5 / 5 : ℚ) ∧
    (moveToCompute 0 0 0 0 3 4 0 10 5 (-2) 2 5).vx * 5 = 3 - 0 ∧
    (moveToCompute 0 0 0 0 3 4 0 10 5 (-2) 2 5).vy * 5 = 4 - 0 ∧
    (moveToCompute 0 0 0 0 3 4 0 10 5 (-2) 2 5).vz * 5 = 0 - 0 :=
  moveTo_extruder_clamp_consistent 0 0 0 0 3 4 0 10 5 (-2) 2 5 2 5
    (by norm_num [moveToDistSq]) (by norm_num [moveToMinDuration])
    (by norm_num) (by norm_num [moveToMinDuration]) (by norm_num) (by norm_num)

/-- C5 counterexample: `MotionPlanner::moveTo` applies NO one-nanosecond
lower bound to the duration.  With `dist = 0` (destination x,y,z equal to
the current position) and `maxVelXyz = 1`, the computed duration
`dist / maxVelXyz` is exactly 0 — strictly below one nanosecond — so the
subsequent extruder-velocity division `(e − curE) / duration` has divisor
0. -/
theorem moveTo_duration_not_bounded_at_zero_dist :
    moveToMinDuration 0 1 = 0 ∧ ¬ NANOSECOND ≤ moveToMinDuration 0 1 := by
  norm_num [moveToMinDuration, NANOSECOND]

/-- C5 (amended): `MotionPlanner::moveTo` computes the duration as
`dist / maxVelXyz` with no lower bound: when the destination's x,y,z equal
the current position the duration is 0 (below one nanosecond) and the
divisor of the extruder-velocity division is 0.  The one-nanosecond lower
bound exists only in the legacy `State::queueMovement`
(code/firmware/src/state.h line 444), whose duration is always at least
`NANOSECOND`. -/
theorem moveTo_duration_lower_bound_only_legacy (maxVelXyz : ℚ)
    (hv : 0 < maxVelXyz) :
    moveToMinDuration 0 maxVelXyz = 0 ∧
    ¬ NANOSECOND ≤ moveToMinDuration 0 maxVelXyz ∧
    ∀ dist : ℚ, NANOSECOND ≤ legacyQueueMovementDuration dist maxVelXyz := by
  refine ⟨by simp [moveToMinDuration], ?_, fun dist => le_max_left _ _⟩
  simp only [moveToMinDuration, zero_div, not_le, NANOSECOND]
  norm_num

/-- Witness for `moveTo_duration_lower_bound_only_legacy` at
`maxVelXyz = 1`, `dist = 5`. -/
theorem moveTo_duration_lower_bound_only_legacy_witness :
    moveToMinDuration 0 1 = 0 ∧
    NANOSECOND ≤ legacyQueueMovementDuration 5 1 :=
  ⟨(moveTo_duration_lower_bound_only_legacy 1 one_pos).1,
    (moveTo_duration_lower_bound_only_legacy 1 one_pos).2.2 5⟩

/-- C9 counterexample: on the unsupported (but grammatically recognized)
opcode `G33`, `State::execute` does NOT reply an error and continue — it
throws `std::runtime_error` (modelled as `Except.error`), so no reply is
produced and command processing is aborted by the exception. -/
theorem execute_unknown_opcode_throws :
    executeReply c9Ctx ⟨"G33"⟩ = .error ("unrecognized gcode opcode: " ++ "G33") ∧
    executeReply c9Ctx ⟨"G33"⟩ ≠ .ok (some .ok) ∧
    executeReply c9Ctx ⟨"G33"⟩ ≠ .ok none := by
  have ht : ¬"G33".take 1 = "T" := by decide
  have hG : executeReply c9Ctx ⟨"G33"⟩ = .error ("unrecognized gcode opcode: " ++ "G33") := by
    simp [executeReply, c9Ctx, ht]
  exact ⟨hG, by rw [hG]; simp, by rw [hG]; simp⟩

/-- C9 (amended): when `State::execute` receives a command whose opcode is
not one of the supported verbs, it throws `std::runtime_error` with the
message naming the opcode; no reply reaches the host and processing is
aborted by the exception rather than continuing. -/
theorem execute_unknown_opcode_error (ctx : ExecCtx) (cmd : GCommand)
    (h : ¬recognizedOpcode cmd) :
    executeReply ctx cmd = .error ("unrecognized gcode opcode: " ++ cmd.opcode) := by
  rw [recognizedOpcode] at h
  push_neg at h
  obtain ⟨hmem, hT⟩ := h
  simp only [List.mem_cons, List.not_mem_nil, or_false] at hmem
  push_neg at hmem
  obtain ⟨h1, h2, h3, h4, h5, h6, h7, h8, h9, h10, h11, h12, h13, h14, h15, h16,
    h17, h18, h19, h20, h21, h22, h23, h24, h25, h26, h27, h28, h29, h30, h31, h32⟩ := hmem
  simp [executeReply, h1, h2, h3, h4, h5, h6, h7, h8, h9, h10, h11, h12, h13, h14,
    h15, h16, h17, h18, h19, h20, h21, h22, h23, h24, h25, h26, h27, h28, h29, h30,
    h31, h32, hT]

/-- Witness for `execute_unknown_opcode_error` at opcode `G33`. -/
theorem execute_unknown_opcode_error_witness :
    executeReply c9Ctx ⟨"G33"⟩ = .error ("unrecognized gcode opcode: " ++ "G33") :=
  execute_unknown_opcode_error c9Ctx ⟨"G33"⟩ (by
    simp only [recognizedOpcode, List.mem_cons, List.not_mem_nil]
    decide)

/-- If `(w - c) * (w - c)` equals `root * root` then `w` is `c + root` or
`c - root`. -/
theorem quadratic_root_cases (c root w rp : ℚ) (hsq : root * root = rp)
    (h : (w - c) * (w - c) = rp) : w = c + root ∨ w = c - root := by
  rcases mul_self_eq_mul_self_iff.1 (h.trans hsq.symm) with h1 | h1
  · left; linarith
  · right; linarith

/-- Structurally, `testDir` only returns times strictly greater than `this->time`
(structurally, from its comparisons, independent of the meaning of
`sqrtFn`). -/
theorem testDir_time_lt (sqrtFn : ℚ → ℚ) (prm : LinearDeltaParams) (t s u : ℚ)
    (h : testDir sqrtFn prm t s = some u) : t < u := by
  unfold testDir at h
  split_ifs at h with h1 h2 h3 h4 h5 <;> simp_all

/-- C2: for a `LinearDeltaStepper` on a linear segment with last emitted
time `t ≥ 0`: (a) `testDir` returns NaN when the discriminant `rootParam`
is negative; (b) when `rootParam ≥ 0` (with `sqrtFn` a genuine square root
there) a returned value is the smallest quadratic root strictly greater
than `t`, and NaN is returned exactly when no root exceeds `t`; (c)
`_nextStep` tests the candidates `sTotal − 1` and `sTotal + 1` via
`testDir`, the smaller valid candidate wins and sets the direction
(Forward for `sTotal + 1`, Backward for `sTotal − 1`), and when both
candidates are invalid the stepper's time becomes NaN. -/
theorem linearDelta_testDir_nextStep_spec
    (sqrtFn : ℚ → ℚ) (prm : LinearDeltaParams) (st : LinearDeltaStepper) (t : ℚ)
    (ht : st.time = some t) (h0 : 0 ≤ t) :
    (∀ s : ℚ, getRootParam prm s < 0 → testDir sqrtFn prm t s = none) ∧
    (∀ s : ℚ, 0 ≤ getRootParam prm s →
      sqrtFn (getRootParam prm s) * sqrtFn (getRootParam prm s) = getRootParam prm s →
      0 ≤ sqrtFn (getRootParam prm s) →
      (∀ u : ℚ, testDir sqrtFn prm t s = some u →
        (u - getTerm1 prm s) * (u - getTerm1 prm s) = getRootParam prm s ∧ t < u ∧
          ∀ w : ℚ, (w - getTerm1 prm s) * (w - getTerm1 prm s) = getRootParam prm s →
            t < w → u ≤ w) ∧
      (testDir sqrtFn prm t s = none →
        ∀ w : ℚ, (w - getTerm1 prm s) * (w - getTerm1 prm s) = getRootParam prm s →
          w ≤ t)) ∧
    (testDir sqrtFn prm t ((st.sTotal - 1) * prm.MM_STEPS) = none →
      testDir sqrtFn prm t ((st.sTotal + 1) * prm.MM_STEPS) = none →
      st.nextStep sqrtFn prm = { st with time := none }) ∧
    (∀ pv : ℚ, testDir sqrtFn prm t ((st.sTotal - 1) * prm.MM_STEPS) = none →
      testDir sqrtFn prm t ((st.sTotal + 1) * prm.MM_STEPS) = some pv →
      st.nextStep sqrtFn prm =
        { time := some pv, direction := .StepForward, sTotal := st.sTotal + 1 }) ∧
    (∀ nv : ℚ, testDir sqrtFn prm t ((st.sTotal - 1) * prm.MM_STEPS) = some nv →
      testDir sqrtFn prm t ((st.sTotal + 1) * prm.MM_STEPS) = none →
      st.nextStep sqrtFn prm =
        { time := some nv, direction := .StepBackward, sTotal := st.sTotal - 1 }) ∧
    (∀ nv pv : ℚ, testDir sqrtFn prm t ((st.sTotal - 1) * prm.MM_STEPS) = some nv →
      testDir sqrtFn prm t ((st.sTotal + 1) * prm.MM_STEPS) = some pv →
      (nv < pv → st.nextStep sqrtFn prm =
        { time := some nv, direction := .StepBackward, sTotal := st.sTotal - 1 }) ∧
      (pv ≤ nv → st.nextStep sqrtFn prm =
        { time := some pv, direction := .StepForward, sTotal := st.sTotal + 1 })) := by
  refine ⟨?_, ?_, ?_, ?_, ?_, ?_⟩
  · intro s hs
    simp [testDir, hs]
  · intro s hrp hsq hroot
    constructor
    · intro u hu
      unfold testDir at hu
      rw [if_neg (not_lt.2 hrp)] at hu
      split_ifs at hu with h1 h2 h3 h4 <;> simp only [Option.some.injEq] at hu
      · -- root > term1, t2 > t: u = term1 + root
        subst hu
        refine ⟨by nlinarith [hsq], h2, ?_⟩
        intro w hw htw
        rcases quadratic_root_cases _ _ _ _ hsq hw with h' | h'
        · exact h'.ge
        · exfalso; rw [h'] at htw; linarith
      · -- root ≤ term1, t1 > t: u = term1 - root
        subst hu
        refine ⟨by nlinarith [hsq], h3, ?_⟩
        intro w hw htw
        rcases quadratic_root_cases _ _ _ _ hsq hw with h' | h'
        · rw [h']; linarith
        · exact h'.ge
      · -- root ≤ term1, t1 ≤ t, t2 > t: u = term1 + root
        subst hu
        refine ⟨by nlinarith [hsq], h4, ?_⟩
        intro w hw htw
        rcases quadratic_root_cases _ _ _ _ hsq hw with h' | h'
        · exact h'.ge
        · exfalso; rw [h'] at htw; push_neg at h3; linarith
    · intro hnone w hw
      unfold testDir at hnone
      rw [if_neg (not_lt.2 hrp)] at hnone
      split_ifs at hnone with h1 h2 h3 h4 <;> try simp at hnone
      · -- root > term1, t2 ≤ t
        push_neg at h2
        rcases quadratic_root_cases _ _ _ _ hsq hw with h' | h'
        · rw [h']; exact h2
        · rw [h']; linarith
      · -- root ≤ term1, t1 ≤ t, t2 ≤ t
        push_neg at h1 h3 h4
        rcases quadratic_root_cases _ _ _ _ hsq hw with h' | h'
        · rw [h']; exact h4
        · rw [h']; exact h3
  · intro hN hP
    simp [LinearDeltaStepper.nextStep, ht, hN, hP, floatLTOrNaN, floatGTval]
  · intro pv hN hP
    have hpv := testDir_time_lt sqrtFn prm t _ pv hP
    simp [LinearDeltaStepper.nextStep, ht, hN, hP, floatLTOrNaN, floatGTval, hpv]
  · intro nv hN hP
    have hnv := testDir_time_lt sqrtFn prm t _ nv hN
    simp [LinearDeltaStepper.nextStep, ht, hN, hP, floatLTOrNaN, floatGTval,
      not_lt.2 hnv.le, hnv]
  · intro nv pv hN hP
    have hnv := testDir_time_lt sqrtFn prm t _ nv hN
    have hpv := testDir_time_lt sqrtFn prm t _ pv hP
    constructor
    · intro hlt
      simp [LinearDeltaStepper.nextStep, ht, hN, hP, floatLTOrNaN, floatGTval, floatLT,
        not_lt.2 hnv.le, not_lt.2 hpv.le, hlt]
    · intro hle
      simp [LinearDeltaStepper.nextStep, ht, hN, hP, floatLTOrNaN, floatGTval, floatLT,
        not_lt.2 hnv.le, not_lt.2 hpv.le, not_lt.2 hle]

/-- Witness for `linearDelta_testDir_nextStep_spec`: with parameters
(`MM_STEPS` = 1, `inv_v2` = 1, `vz_over_v2` = 0, `almostTerm1` = 5,
`almostRootParam` = −20, `almostRootParamV2S` = 0) both candidates at
`sTotal = 0` have discriminant 4 and root 3, so `_nextStep` from time 0
takes the forward tie-break. -/
theorem linearDelta_testDir_nextStep_spec_witness :
    LinearDeltaStepper.nextStep (fun _ => 2)
        ⟨1, 1, 0, 5, -20, 0⟩ ⟨some 0, .StepForward, 0⟩ =
      { time := some 3, direction := .StepForward, sTotal := 0 + 1 } := by
  have h := linearDelta_testDir_nextStep_spec (fun _ => 2) ⟨1, 1, 0, 5, -20, 0⟩
    ⟨some 0, .StepForward, 0⟩ 0 rfl le_rfl
  have hN : testDir (fun _ => 2) ⟨1, 1, 0, 5, -20, 0⟩ 0 (((0 : ℤ) - 1) * 1) = some 3 := by
    norm_num [testDir, getTerm1, getRootParam]
  have hP : testDir (fun _ => 2) ⟨1, 1, 0, 5, -20, 0⟩ 0 (((0 : ℤ) + 1) * 1) = some 3 := by
    norm_num [testDir, getTerm1, getRootParam]
  exact (h.2.2.2.2.2 3 3 hN hP).2 le_rfl

/-! ### MotionPlanner lemmas -/

theorem timeLT_irrefl (a : Option ℚ) : timeLT a a = false := by
  cases a <;> simp [timeLT]

theorem timeLT_trans {a b c : Option ℚ} (h1 : timeLT a b = true)
    (h2 : timeLT b c = true) : timeLT a c = true := by
  cases a <;> cases b <;> cases c <;> simp_all [timeLT] <;> linarith

theorem timeLT_not_lt_trans {a b c : Option ℚ} (h1 : timeLT a b = false)
    (h2 : timeLT a c = true) : timeLT b c = true := by
  cases a <;> cases b <;> cases c <;> simp_all [timeLT] <;> linarith

/-- The result of the `pickBest` scan started at `some b` has a time no
larger than `b`'s and than that of every scanned axis. -/
theorem pickBest_some_min (ops : AxisStepperOps σ) (st : Fin n → σ) :
    ∀ (l : List (Fin n)) (b r : Fin n), pickBest ops st (some b) l = some r →
      timeLT (ops.time (st b)) (ops.time (st r)) = false ∧
      ∀ j ∈ l, timeLT (ops.time (st j)) (ops.time (st r)) = false := by
  intro l
  induction l with
  | nil =>
    intro b r h
    simp only [pickBest, Option.some.injEq] at h
    subst h
    exact ⟨timeLT_irrefl _, by simp⟩
  | cons i rest ih =>
    intro b r h
    rw [pickBest] at h
    by_cases hib : timeLT (ops.time (st i)) (ops.time (st b)) = true
    · rw [if_pos hib] at h
      obtain ⟨hb2, hrest⟩ := ih i r h
      have hb : timeLT (ops.time (st b)) (ops.time (st r)) = false := by
        by_contra hcon
        rw [Bool.not_eq_false] at hcon
        exact absurd (timeLT_trans hib hcon) (by simp [hb2])
      refine ⟨hb, ?_⟩
      intro j hj
      rcases List.mem_cons.1 hj with rfl | hj
      · exact hb2
      · exact hrest j hj
    · rw [if_neg hib] at h
      rw [Bool.not_eq_true] at hib
      obtain ⟨hb2, hrest⟩ := ih b r h
      refine ⟨hb2, ?_⟩
      intro j hj
      rcases List.mem_cons.1 hj with rfl | hj
      · by_contra hcon
        rw [Bool.not_eq_false] at hcon
        exact absurd (timeLT_not_lt_trans hib hcon) (by simp [hb2])
      · exact hrest j hj

/-- The axis returned by `getNextTimeIndex` has the smallest time: no axis
compares strictly below it. -/
theorem getNextTimeIndex_min (ops : AxisStepperOps σ) (st : Fin n → σ) (i : Fin n)
    (h : getNextTimeIndex ops st = some i) :
    ∀ j : Fin n, timeLT (ops.time (st j)) (ops.time (st i)) = false := by
  intro j
  unfold getNextTimeIndex at h
  rcases hfr : List.finRange n with _ | ⟨i0, rest⟩
  · exact absurd (List.mem_finRange j) (by simp [hfr])
  · rw [hfr, pickBest] at h
    obtain ⟨hb, hrest⟩ := pickBest_some_min ops st rest i0 i h
    have hj : j ∈ List.finRange n := List.mem_finRange j
    rw [hfr] at hj
    rcases List.mem_cons.1 hj with rfl | hj
    · exact hb
    · exact hrest j hj

theorem curIters_of_move {p : MotionPlanner σ n} (h : p.motionType = .MotionMove) :
    p.curIters = p.iters := by
  simp [MotionPlanner.curIters, h]

theorem nextStep_of_idle (ops : AxisStepperOps σ) (f : ℚ → ℚ)
    (ghp : (Fin n → ℤ) → Fin n → ℤ) (p : MotionPlanner σ n)
    (h : p.motionType = .MotionNone) : p.nextStep ops f ghp = (.null, p) := by
  simp [MotionPlanner.nextStep, h]

theorem nextStep_of_no_axis (ops : AxisStepperOps σ) (f : ℚ → ℚ)
    (ghp : (Fin n → ℤ) → Fin n → ℤ) (p : MotionPlanner σ n)
    (hmt : ¬p.motionType = .MotionNone)
    (h : getNextTimeIndex ops p.curIters = none) : p.nextStep ops f ghp = (.null, p) := by
  simp [MotionPlanner.nextStep, hmt, h]

theorem nextStep_of_ends (ops : AxisStepperOps σ) (f : ℚ → ℚ)
    (ghp : (Fin n → ℤ) → Fin n → ℤ) (p : MotionPlanner σ n) (i : Fin n)
    (hmt : ¬p.motionType = .MotionNone)
    (hi : getNextTimeIndex ops p.curIters = some i)
    (hend : stepEndsMove p.duration (ops.time (p.curIters i)) = true) :
    p.nextStep ops f ghp = (.null,
      { p with
        destMechanicalPos :=
          if p.motionType = .MotionHome then ghp p.destMechanicalPos
          else p.destMechanicalPos
        motionType := .MotionNone }) := by
  simp [MotionPlanner.nextStep, hmt, hi, hend]

theorem nextStep_of_emit (ops : AxisStepperOps σ) (f : ℚ → ℚ)
    (ghp : (Fin n → ℤ) → Fin n → ℤ) (p : MotionPlanner σ n) (i : Fin n)
    (hmt : p.motionType = .MotionMove)
    (hi : getNextTimeIndex ops p.iters = some i)
    (hend : stepEndsMove p.duration (ops.time (p.iters i)) = false) :
    p.nextStep ops f ghp =
      (Event.step i (ops.direction (p.iters i)) ((ops.time (p.iters i)).getD 0)
          (p.baseTime + f ((ops.time (p.iters i)).getD 0)),
        { p with
          destMechanicalPos := Function.update p.destMechanicalPos i
            (p.destMechanicalPos i + stepDirToSigned (ops.direction (p.iters i)))
          iters := Function.update p.iters i (ops.advance (p.iters i)) }) := by
  have hcur := curIters_of_move (p := p) hmt
  simp [MotionPlanner.nextStep, hmt, hcur, hi, hend]

theorem stepEndsMove_false_elim (dur time : Option ℚ)
    (h : stepEndsMove dur time = false) :
    ∃ m, time = some m ∧ 0 < m ∧ ∀ d, dur = some d → m ≤ d := by
  cases time with
  | none => simp [stepEndsMove] at h
  | some m =>
    simp only [stepEndsMove, floatLEval, Bool.or_eq_false_iff] at h
    obtain ⟨⟨hlt, hle⟩, -⟩ := h
    refine ⟨m, rfl, by simpa using hle, ?_⟩
    intro d hd
    subst hd
    simp only [floatLT, decide_eq_false_iff_not, not_lt] at hlt
    exact hlt

theorem nextStep_baseTime (ops : AxisStepperOps σ) (f : ℚ → ℚ)
    (ghp : (Fin n → ℤ) → Fin n → ℤ) (p : MotionPlanner σ n) :
    (p.nextStep ops f ghp).2.baseTime = p.baseTime := by
  by_cases hmt : p.motionType = .MotionNone
  · rw [nextStep_of_idle ops f ghp p hmt]
  · rcases hidx : getNextTimeIndex ops p.curIters with _ | i
    · rw [nextStep_of_no_axis ops f ghp p hmt hidx]
    · by_cases hend : stepEndsMove p.duration (ops.time (p.curIters i)) = true
      · rw [nextStep_of_ends ops f ghp p i hmt hidx hend]
      · rw [MotionPlanner.nextStep]
        rw [if_neg hmt, hidx]
        simp only
        rw [if_neg hend]
        split <;> rfl

theorem run_succ_def (ops : AxisStepperOps σ) (f : ℚ → ℚ)
    (ghp : (Fin n → ℤ) → Fin n → ℤ) (p : MotionPlanner σ n) (k : ℕ) :
    MotionPlanner.run ops f ghp p (k + 1) =
      ((p.nextStep ops f ghp).1 ::
          (MotionPlanner.run ops f ghp (p.nextStep ops f ghp).2 k).1,
        (MotionPlanner.run ops f ghp (p.nextStep ops f ghp).2 k).2) := rfl

/-- An idle planner yields only null events and never changes. -/
theorem run_of_idle (ops : AxisStepperOps σ) (f : ℚ → ℚ)
    (ghp : (Fin n → ℤ) → Fin n → ℤ) (k : ℕ) (p : MotionPlanner σ n)
    (h : p.motionType = .MotionNone) :
    MotionPlanner.run ops f ghp p k = (List.replicate k .null, p) := by
  induction k with
  | zero => rfl
  | succ k ih =>
    rw [run_succ_def, nextStep_of_idle ops f ghp p h]
    simp [ih, List.replicate_succ]

theorem idealTimes_replicate_null (k : ℕ) :
    idealTimes (n := n) (List.replicate k .null) = [] := by
  induction k with
  | zero => rfl
  | succ k ih => rw [List.replicate_succ]; simpa [idealTimes] using ih

theorem stepDeadlines_replicate_null (k : ℕ) :
    stepDeadlines (n := n) (List.replicate k .null) = [] := by
  induction k with
  | zero => rfl
  | succ k ih => rw [List.replicate_succ]; simpa [stepDeadlines] using ih

theorem axisIdealTimes_replicate_null (a : Fin n) (k : ℕ) :
    axisIdealTimes a (List.replicate k .null) = [] := by
  induction k with
  | zero => rfl
  | succ k ih => rw [List.replicate_succ]; simpa [axisIdealTimes] using ih

/-- C10: calling `MotionPlanner::nextStep` while the motion type is
`MotionNone` (Idle) returns a null event and leaves the planner entirely
unchanged — in particular the mechanical positions, base time, duration and
motion type keep their values — and `readyForNextMove()` still returns true
afterwards. -/
theorem nextStep_idle_frame (ops : AxisStepperOps σ) (f : ℚ → ℚ)
    (ghp : (Fin n → ℤ) → Fin n → ℤ) (p : MotionPlanner σ n)
    (h : p.motionType = .MotionNone) :
    p.nextStep ops f ghp = (.null, p) ∧
    (p.nextStep ops f ghp).2.destMechanicalPos = p.destMechanicalPos ∧
    (p.nextStep ops f ghp).2.baseTime = p.baseTime ∧
    (p.nextStep ops f ghp).2.duration = p.duration ∧
    (p.nextStep ops f ghp).2.motionType = p.motionType ∧
    (p.nextStep ops f ghp).2.readyForNextMove = true := by
  have h1 := nextStep_of_idle ops f ghp p h
  rw [h1]
  exact ⟨rfl, rfl, rfl, rfl, rfl, by simp [MotionPlanner.readyForNextMove, h]⟩

/-- Witness for `nextStep_idle_frame` on the concrete idle planner
`pIdle`. -/
theorem nextStep_idle_frame_witness :
    pIdle.nextStep opsUnit (fun t => t) (fun pos => pos) = (.null, pIdle) ∧
    (pIdle.nextStep opsUnit (fun t => t) (fun pos => pos)).2.destMechanicalPos =
      pIdle.destMechanicalPos ∧
    (pIdle.nextStep opsUnit (fun t => t) (fun pos => pos)).2.baseTime = pIdle.baseTime ∧
    (pIdle.nextStep opsUnit (fun t => t) (fun pos => pos)).2.duration = pIdle.duration ∧
    (pIdle.nextStep opsUnit (fun t => t) (fun pos => pos)).2.motionType = pIdle.motionType ∧
    (pIdle.nextStep opsUnit (fun t => t) (fun pos => pos)).2.readyForNextMove = true :=
  nextStep_idle_frame opsUnit (fun t => t) (fun pos => pos) pIdle rfl

/-- C3: whenever the chosen stepper's time is greater than the segment
duration, is NaN, or is ≤ 0 (the `stepEndsMove` condition of
motionplanner.h line 56), the planner returns a null event without
emitting a step and transitions to Idle; if it was Homing the mechanical
positions are first reset to the coordinate map's home position, and
otherwise they are unchanged; the remaining fields keep their values. -/
theorem nextStep_ends_goes_idle (ops : AxisStepperOps σ) (f : ℚ → ℚ)
    (ghp : (Fin n → ℤ) → Fin n → ℤ) (p : MotionPlanner σ n) (i : Fin n)
    (hmt : ¬p.motionType = .MotionNone)
    (hi : getNextTimeIndex ops p.curIters = some i)
    (hend : stepEndsMove p.duration (ops.time (p.curIters i)) = true) :
    (p.nextStep ops f ghp).1 = .null ∧
    (p.nextStep ops f ghp).2.motionType = .MotionNone ∧
    (p.nextStep ops f ghp).2.destMechanicalPos =
      (if p.motionType = .MotionHome then ghp p.destMechanicalPos
        else p.destMechanicalPos) ∧
    (p.motionType = .MotionHome →
      (p.nextStep ops f ghp).2.destMechanicalPos = ghp p.destMechanicalPos) ∧
    (p.motionType = .MotionMove →
      (p.nextStep ops f ghp).2.destMechanicalPos = p.destMechanicalPos) ∧
    (p.nextStep ops f ghp).2.baseTime = p.baseTime ∧
    (p.nextStep ops f ghp).2.duration = p.duration ∧
    (p.nextStep ops f ghp).2.iters = p.iters ∧
    (p.nextStep ops f ghp).2.homeIters = p.homeIters := by
  have h1 := nextStep_of_ends ops f ghp p i hmt hi hend
  rw [h1]
  refine ⟨rfl, rfl, rfl, ?_, ?_, rfl, rfl, rfl, rfl⟩
  · intro hh
    simp [hh]
  · intro hh
    simp [hh]

/-- Witness for `nextStep_ends_goes_idle` on the concrete planner `pEnd`,
whose single stepper reports NaN. -/
theorem nextStep_ends_goes_idle_witness :
    (pEnd.nextStep opsUnit (fun t => t) (fun pos => pos)).1 = .null ∧
    (pEnd.nextStep opsUnit (fun t => t) (fun pos => pos)).2.motionType = .MotionNone ∧
    (pEnd.nextStep opsUnit (fun t => t) (fun pos => pos)).2.destMechanicalPos =
      (if pEnd.motionType = .MotionHome then pEnd.destMechanicalPos
        else pEnd.destMechanicalPos) ∧
    (pEnd.motionType = .MotionHome →
      (pEnd.nextStep opsUnit (fun t => t) (fun pos => pos)).2.destMechanicalPos =
        pEnd.destMechanicalPos) ∧
    (pEnd.motionType = .MotionMove →
      (pEnd.nextStep opsUnit (fun t => t) (fun pos => pos)).2.destMechanicalPos =
        pEnd.destMechanicalPos) ∧
    (pEnd.nextStep opsUnit (fun t => t) (fun pos => pos)).2.baseTime = pEnd.baseTime ∧
    (pEnd.nextStep opsUnit (fun t => t) (fun pos => pos)).2.duration = pEnd.duration ∧
    (pEnd.nextStep opsUnit (fun t => t) (fun pos => pos)).2.iters = pEnd.iters ∧
    (pEnd.nextStep opsUnit (fun t => t) (fun pos => pos)).2.homeIters = pEnd.homeIters :=
  nextStep_ends_goes_idle opsUnit (fun t => t) (fun pos => pos) pEnd 0
    (by decide) (by decide) (by decide)

theorem idealTimes_cons_step (a : Fin n) (dir : StepDirection) (m dl : ℚ)
    (es : List (Event n)) :
    idealTimes (.step a dir m dl :: es) = m :: idealTimes es := rfl

theorem stepDeadlines_cons_step (a : Fin n) (dir : StepDirection) (m dl : ℚ)
    (es : List (Event n)) :
    stepDeadlines (.step a dir m dl :: es) = dl :: stepDeadlines es := rfl

theorem axisIdealTimes_cons_self (a : Fin n) (dir : StepDirection) (m dl : ℚ)
    (es : List (Event n)) :
    axisIdealTimes a (.step a dir m dl :: es) = m :: axisIdealTimes a es := by
  simp [axisIdealTimes]

theorem axisIdealTimes_cons_ne (a b : Fin n) (h : ¬b = a) (dir : StepDirection)
    (m dl : ℚ) (es : List (Event n)) :
    axisIdealTimes a (.step b dir m dl :: es) = axisIdealTimes a es := by
  simp [axisIdealTimes, h]

/-- The ordering invariant of a moving planner, by induction over the run:
relative to the ideal time `lastI` of the last emitted event (`none` before
the first) and the per-axis ideal times `lastA` of the last step emitted on
each axis, every later ideal time stays in `(0, duration]` and at or above
`lastI`, deadlines are non-decreasing, and per-axis ideal times strictly
increase.  The hypotheses on `f` (the acceleration transform, monotone on
`[0, d]`) and on `ops.advance` (an advanced stepper proposes a strictly
later time, the `testDir` contract) are those of claim C1. -/
theorem run_move_invariant (ops : AxisStepperOps σ) (f : ℚ → ℚ)
    (ghp : (Fin n → ℤ) → Fin n → ℤ) (d : ℚ)
    (hmono : ∀ a b : ℚ, 0 ≤ a → a ≤ b → b ≤ d → f a ≤ f b)
    (hadv : ∀ s v v', ops.time s = some v → ops.time (ops.advance s) = some v' → v < v') :
    ∀ (k : ℕ) (p : MotionPlanner σ n) (lastI : Option ℚ) (lastA : Fin n → Option ℚ),
      p.motionType = .MotionMove →
      p.duration = some d →
      (∀ v, lastI = some v → 0 ≤ v ∧ v ≤ d) →
      (∀ i v, ops.time (p.iters i) = some v → ∀ u, lastI = some u → u ≤ v) →
      (∀ i v, ops.time (p.iters i) = some v → ∀ u, lastA i = some u → u < v) →
      (∀ x ∈ idealTimes (MotionPlanner.run ops f ghp p k).1,
        (0 < x ∧ x ≤ d) ∧ ∀ u, lastI = some u → u ≤ x) ∧
      (∀ dl ∈ stepDeadlines (MotionPlanner.run ops f ghp p k).1,
        ∀ u, lastI = some u → p.baseTime + f u ≤ dl) ∧
      List.Chain' (· ≤ ·) (stepDeadlines (MotionPlanner.run ops f ghp p k).1) ∧
      ∀ a : Fin n,
        (∀ x ∈ axisIdealTimes a (MotionPlanner.run ops f ghp p k).1,
          ∀ u, lastA a = some u → u < x) ∧
        List.Chain' (· < ·) (axisIdealTimes a (MotionPlanner.run ops f ghp p k).1) := by
  intro k
  induction k with
  | zero =>
    intro p lastI lastA _ _ _ _ _
    simp [MotionPlanner.run, idealTimes, stepDeadlines, axisIdealTimes]
  | succ k ih =>
    intro p lastI lastA hmt hdur hrange htge htgA
    have hmtne : ¬p.motionType = .MotionNone := by simp [hmt]
    rcases hidx : getNextTimeIndex ops p.curIters with _ | i
    · rw [run_succ_def, nextStep_of_no_axis ops f ghp p hmtne hidx]
      obtain ⟨A, B, C, D⟩ := ih p lastI lastA hmt hdur hrange htge htgA
      refine ⟨?_, ?_, ?_, fun a => ⟨?_, ?_⟩⟩
      · simpa [idealTimes] using A
      · simpa [stepDeadlines] using B
      · simpa [stepDeadlines] using C
      · simpa [axisIdealTimes] using (D a).1
      · simpa [axisIdealTimes] using (D a).2
    · by_cases hend : stepEndsMove p.duration (ops.time (p.curIters i)) = true
      · rw [run_succ_def, nextStep_of_ends ops f ghp p i hmtne hidx hend,
          run_of_idle ops f ghp k _ rfl]
        refine ⟨?_, ?_, ?_, fun a => ⟨?_, ?_⟩⟩ <;>
          simp [idealTimes, stepDeadlines, axisIdealTimes, idealTimes_replicate_null,
            stepDeadlines_replicate_null, axisIdealTimes_replicate_null]
      · rw [Bool.not_eq_true] at hend
        have hcur := curIters_of_move (p := p) hmt
        rw [hcur] at hidx hend
        obtain ⟨m, hm, hmpos, hmle⟩ := stepEndsMove_false_elim _ _ hend
        have hmled : m ≤ d := hmle d hdur
        have hstep := nextStep_of_emit ops f ghp p i hmt hidx hend
        set p' : MotionPlanner σ n :=
          { p with
            destMechanicalPos := Function.update p.destMechanicalPos i
              (p.destMechanicalPos i + stepDirToSigned (ops.direction (p.iters i)))
            iters := Function.update p.iters i (ops.advance (p.iters i)) } with hp'
        have hpit : p'.iters = Function.update p.iters i (ops.advance (p.iters i)) := by
          rw [hp']
        have hgd : (ops.time (p.iters i)).getD 0 = m := by rw [hm]; rfl
        rw [hgd] at hstep
        have hmtp : p'.motionType = .MotionMove := hmt
        have hdurp : p'.duration = some d := hdur
        have hrange2 : ∀ v : ℚ, (some m : Option ℚ) = some v → 0 ≤ v ∧ v ≤ d := by
          intro v hv
          cases hv
          exact ⟨hmpos.le, hmled⟩
        have htge2 : ∀ (j : Fin n) (v : ℚ), ops.time (p'.iters j) = some v →
            ∀ u : ℚ, (some m : Option ℚ) = some u → u ≤ v := by
          intro j v hjv u hu
          cases hu
          rw [hpit] at hjv
          by_cases hji : j = i
          · subst hji
            rw [Function.update_same] at hjv
            exact (hadv _ m v hm hjv).le
          · rw [Function.update_noteq hji] at hjv
            have hmin := getNextTimeIndex_min ops p.iters i hidx j
            rw [hjv, hm] at hmin
            simp only [timeLT, decide_eq_false_iff_not, not_lt] at hmin
            exact hmin
        have htgA2 : ∀ (j : Fin n) (v : ℚ), ops.time (p'.iters j) = some v →
            ∀ u : ℚ, Function.update lastA i (some m) j = some u → u < v := by
          intro j v hjv u hu
          rw [hpit] at hjv
          by_cases hji : j = i
          · subst hji
            rw [Function.update_same] at hjv hu
            cases hu
            exact hadv _ m v hm hjv
          · rw [Function.update_noteq hji] at hjv hu
            exact htgA j v hjv u hu
        obtain ⟨A2, B2, C2, D2⟩ :=
          ih p' (some m) (Function.update lastA i (some m)) hmtp hdurp hrange2 htge2 htgA2
        have hbase : p'.baseTime = p.baseTime := rfl
        rw [run_succ_def, hstep]
        refine ⟨?_, ?_, ?_, ?_⟩
        · rw [idealTimes_cons_step]
          intro x hx
          rcases List.mem_cons.1 hx with rfl | hx
          · exact ⟨⟨hmpos, hmled⟩, fun u hu => htge i x hm u hu⟩
          · obtain ⟨hxr, hxge⟩ := A2 x hx
            exact ⟨hxr, fun u hu => le_trans (htge i m hm u hu) (hxge m rfl)⟩
        · rw [stepDeadlines_cons_step]
          intro dl hdl u hu
          have hum : u ≤ m := htge i m hm u hu
          have h0u : 0 ≤ u := (hrange u hu).1
          have hfum : p.baseTime + f u ≤ p.baseTime + f m :=
            add_le_add_left (hmono u m h0u hum hmled) _
          rcases List.mem_cons.1 hdl with rfl | hdl
          · exact hfum
          · have hb := B2 dl hdl m rfl
            rw [hbase] at hb
            exact hfum.trans hb
        · rw [stepDeadlines_cons_step, List.chain'_cons']
          refine ⟨?_, C2⟩
          intro y hy
          have hb := B2 y (List.mem_of_mem_head? hy) m rfl
          rw [hbase] at hb
          exact hb
        · intro a
          by_cases hia : i = a
          · subst hia
            rw [axisIdealTimes_cons_self]
            have hlastA : Function.update lastA i (some m) i = some m :=
              Function.update_same i (some m) lastA
            refine ⟨?_, ?_⟩
            · intro x hx u hu
              rcases List.mem_cons.1 hx with rfl | hx
              · exact htgA i x hm u hu
              · exact lt_trans (htgA i m hm u hu) ((D2 i).1 x hx m hlastA)
            · rw [List.chain'_cons']
              refine ⟨?_, (D2 i).2⟩
              intro y hy
              exact (D2 i).1 y (List.mem_of_mem_head? hy) m hlastA
          · rw [axisIdealTimes_cons_ne _ _ hia]
            have hlastA : Function.update lastA i (some m) a = lastA a :=
              Function.update_noteq (fun hc => hia hc.symm) (some m) lastA
            refine ⟨?_, (D2 a).2⟩
            intro x hx u hu
            exact (D2 a).1 x hx u (by rw [hlastA]; exact hu)

/-- C1: for a move segment, if the acceleration transform is strictly
increasing on `[0, duration]` and every advanced stepper proposes a
strictly later time (the `testDir` contract of the axis steppers), then
(1) the non-null events yielded by successive `nextStep` calls have
non-decreasing deadlines, (2) for each axis the ideal step times the
stepper proposes strictly increase, and (3) each emitted step adds exactly
`+1` or `−1` (as determined by the step direction) to that axis's entry of
the planner's mechanical position, leaving the other axes unchanged. -/
theorem planner_move_event_ordering (ops : AxisStepperOps σ) (f : ℚ → ℚ)
    (ghp : (Fin n → ℤ) → Fin n → ℤ) (d : ℚ) (p : MotionPlanner σ n) (k : ℕ)
    (hmono : ∀ a b : ℚ, 0 ≤ a → a < b → b ≤ d → f a < f b)
    (hadv : ∀ s v v', ops.time s = some v → ops.time (ops.advance s) = some v' → v < v')
    (hmt : p.motionType = .MotionMove)
    (hdur : p.duration = some d) :
    List.Chain' (· ≤ ·) (stepDeadlines (MotionPlanner.run ops f ghp p k).1) ∧
    (∀ a : Fin n,
      List.Chain' (· < ·) (axisIdealTimes a (MotionPlanner.run ops f ghp p k).1)) ∧
    (∀ (q : MotionPlanner σ n) (a : Fin n) (dir : StepDirection) (m dl : ℚ),
      q.motionType = .MotionMove →
      (q.nextStep ops f ghp).1 = .step a dir m dl →
      (q.nextStep ops f ghp).2.destMechanicalPos a =
        q.destMechanicalPos a + stepDirToSigned dir ∧
      ∀ j, ¬j = a →
        (q.nextStep ops f ghp).2.destMechanicalPos j = q.destMechanicalPos j) := by
  have hmono2 : ∀ a b : ℚ, 0 ≤ a → a ≤ b → b ≤ d → f a ≤ f b := by
    intro a b ha hab hbd
    rcases eq_or_lt_of_le hab with rfl | h
    · exact le_rfl
    · exact (hmono a b ha h hbd).le
  obtain ⟨A, B, C, D⟩ := run_move_invariant ops f ghp d hmono2 hadv k p none
    (fun _ => none) hmt hdur (by simp) (by simp) (by simp)
  refine ⟨C, fun a => (D a).2, ?_⟩
  intro q a dir m dl hqmt hq
  have hqn : ¬q.motionType = .MotionNone := by simp [hqmt]
  rcases hidx : getNextTimeIndex ops q.curIters with _ | i
  · rw [nextStep_of_no_axis ops f ghp q hqn hidx] at hq
    exact absurd hq (by simp)
  by_cases hend : stepEndsMove q.duration (ops.time (q.curIters i)) = true
  · rw [nextStep_of_ends ops f ghp q i hqn hidx hend] at hq
    exact absurd hq (by simp)
  · rw [Bool.not_eq_true] at hend
    have hcur := curIters_of_move (p := q) hqmt
    rw [hcur] at hidx hend
    have hstep := nextStep_of_emit ops f ghp q i hqmt hidx hend
    rw [hstep] at hq
    rw [hstep]
    simp only [Event.step.injEq] at hq
    obtain ⟨ha, hdir, -, -⟩ := hq
    subst ha
    constructor
    · rw [← hdir]
      simp [Function.update_same]
    · intro j hja
      simp [Function.update_noteq hja]

/-- Witness for `planner_move_event_ordering`: the counting stepper
`opsCount` on the concrete moving planner `pMove` (duration 2, first time
1/2), run for three events. -/
theorem planner_move_event_ordering_witness :
    List.Chain' (· ≤ ·)
      (stepDeadlines (MotionPlanner.run opsCount (fun t => t) (fun pos => pos) pMove 3).1) ∧
    List.Chain' (· < ·)
      (axisIdealTimes 0 (MotionPlanner.run opsCount (fun t => t) (fun pos => pos) pMove 3).1) := by
  have h := planner_move_event_ordering opsCount (fun t => t) (fun pos => pos) 2 pMove 3
    (fun a b _ hab _ => hab)
    (by
      intro s v v' hv hv'
      simp only [opsCount, Option.some.injEq] at hv hv'
      subst hv
      subst hv'
      linarith)
    rfl rfl
  exact ⟨h.1, h.2.1 0⟩

/-- The event emitted by a non-idle, non-ending `nextStep` call, for any
motion type. -/
theorem nextStep_emit_event (ops : AxisStepperOps σ) (f : ℚ → ℚ)
    (ghp : (Fin n → ℤ) → Fin n → ℤ) (p : MotionPlanner σ n) (i : Fin n)
    (hmtn : ¬p.motionType = .MotionNone)
    (hi : getNextTimeIndex ops p.curIters = some i)
    (hend : stepEndsMove p.duration (ops.time (p.curIters i)) = false) :
    (p.nextStep ops f ghp).1 =
      Event.step i (ops.direction (p.curIters i)) ((ops.time (p.curIters i)).getD 0)
        (p.baseTime + f ((ops.time (p.curIters i)).getD 0)) := by
  simp [MotionPlanner.nextStep, hmtn, hi, hend]

/-- Every step event yielded by a run has deadline
`baseTime + transform(idealTime)` with a positive ideal time. -/
theorem run_step_event_shape (ops : AxisStepperOps σ) (f : ℚ → ℚ)
    (ghp : (Fin n → ℤ) → Fin n → ℤ) :
    ∀ (k : ℕ) (p : MotionPlanner σ n) (a : Fin n) (dir : StepDirection) (m dl : ℚ),
      Event.step a dir m dl ∈ (MotionPlanner.run ops f ghp p k).1 →
      dl = p.baseTime + f m ∧ 0 < m := by
  intro k
  induction k with
  | zero =>
    intro p a dir m dl h
    simp [MotionPlanner.run] at h
  | succ k ih =>
    intro p a dir m dl h
    rw [run_succ_def] at h
    rcases List.mem_cons.1 h with heq | hmem
    · by_cases hqn : p.motionType = .MotionNone
      · rw [nextStep_of_idle ops f ghp p hqn] at heq
        exact absurd heq (by simp)
      · rcases hidx : getNextTimeIndex ops p.curIters with _ | i
        · rw [nextStep_of_no_axis ops f ghp p hqn hidx] at heq
          exact absurd heq (by simp)
        · by_cases hend : stepEndsMove p.duration (ops.time (p.curIters i)) = true
          · rw [nextStep_of_ends ops f ghp p i hqn hidx hend] at heq
            exact absurd heq (by simp)
          · rw [Bool.not_eq_true] at hend
            rw [nextStep_emit_event ops f ghp p i hqn hidx hend] at heq
            obtain ⟨m0, hm0, hm0pos, -⟩ := stepEndsMove_false_elim _ _ hend
            rw [hm0] at heq
            simp only [Option.getD_some, Event.step.injEq] at heq
            obtain ⟨-, -, rfl, rfl⟩ := heq
            exact ⟨rfl, hm0pos⟩
    · have hres := ih (p.nextStep ops f ghp).2 a dir m dl hmem
      rw [nextStep_baseTime ops f ghp p] at hres
      exact hres

/-- C7: both `State::queueMovement` and `State::queueArc` hand the planner
the start time `max(_lastMotionPlannedTime, now)`, and (provided the
transform of a positive time is nonnegative) every event of the newly
queued segment has deadline at least `_lastMotionPlannedTime` — the time
of the previous segment's last planned event — so the new segment's
deadlines never precede it. -/
theorem queue_segment_start_time (ops : AxisStepperOps σ) (f : ℚ → ℚ)
    (ghp : (Fin n → ℤ) → Fin n → ℤ) (st : StateMotion σ n) (now : ℚ)
    (newIters : Fin n → σ) (minDuration : ℚ) (k : ℕ)
    (hn : ¬n = 0)
    (hf : ∀ t : ℚ, 0 < t → 0 ≤ f t) :
    (State.queueMovement st now newIters minDuration).motionPlanner.baseTime =
      max st.lastMotionPlannedTime now ∧
    (State.queueArc st now newIters minDuration).motionPlanner.baseTime =
      max st.lastMotionPlannedTime now ∧
    (∀ ev ∈ (MotionPlanner.run ops f ghp
        (State.queueMovement st now newIters minDuration).motionPlanner k).1,
      ∀ (a : Fin n) (dir : StepDirection) (m dl : ℚ), ev = .step a dir m dl →
        st.lastMotionPlannedTime ≤ dl) ∧
    (∀ ev ∈ (MotionPlanner.run ops f ghp
        (State.queueArc st now newIters minDuration).motionPlanner k).1,
      ∀ (a : Fin n) (dir : StepDirection) (m dl : ℚ), ev = .step a dir m dl →
        st.lastMotionPlannedTime ≤ dl) := by
  have hbm : (State.queueMovement st now newIters minDuration).motionPlanner.baseTime =
      max st.lastMotionPlannedTime now := by
    simp [State.queueMovement, MotionPlanner.moveToState, hn]
  have hba : (State.queueArc st now newIters minDuration).motionPlanner.baseTime =
      max st.lastMotionPlannedTime now := by
    simp [State.queueArc, MotionPlanner.arcToState, hn]
  refine ⟨hbm, hba, ?_, ?_⟩
  · intro ev hev a dir m dl hevEq
    subst hevEq
    obtain ⟨hdl, hmpos⟩ := run_step_event_shape ops f ghp k _ a dir m dl hev
    rw [hdl, hbm]
    calc st.lastMotionPlannedTime ≤ max st.lastMotionPlannedTime now := le_max_left _ _
    _ ≤ max st.lastMotionPlannedTime now + f m := le_add_of_nonneg_right (hf m hmpos)
  · intro ev hev a dir m dl hevEq
    subst hevEq
    obtain ⟨hdl, hmpos⟩ := run_step_event_shape ops f ghp k _ a dir m dl hev
    rw [hdl, hba]
    calc st.lastMotionPlannedTime ≤ max st.lastMotionPlannedTime now := le_max_left _ _
    _ ≤ max st.lastMotionPlannedTime now + f m := le_add_of_nonneg_right (hf m hmpos)

/-- Witness for `queue_segment_start_time` at last-planned time 3 and
clock time 5. -/
theorem queue_segment_start_time_witness :
    (State.queueMovement ⟨3, pMove⟩ 5 (fun _ => (1 / 2 : ℚ)) 2).motionPlanner.baseTime =
      max 3 5 ∧
    (State.queueArc ⟨3, pMove⟩ 5 (fun _ => (1 / 2 : ℚ)) 2).motionPlanner.baseTime =
      max 3 5 :=
  have h := queue_segment_start_time opsCount (fun t => t) (fun pos => pos) ⟨3, pMove⟩ 5
    (fun _ => (1 / 2 : ℚ)) 2 1 (by decide) (fun t ht => ht.le)
  ⟨h.1, h.2.1⟩

end Printipi
